import Mathlib

/-!
Shallow embedding of ghbackup: `src/main.go` (the standalone tool) and
`src/unnamed/part_000` (a CLI driving the `qvl.io/ghbackup/ghbackup` library,
which is not present under `src/`).

Modelling conventions:
  - Strings handled by the Link-header parser are `List Char` so that the
    character-level operations of the Go `strings` package are structural.
  - HTTP is modelled by the sequence of responses the program receives: each
    fetch consumes the head of the sequence (pagination is sequential).
  - A Go panic is modelled as `Except.error`; it aborts the whole run,
    because a panic in any goroutine kills the process.
  - Writing a line to stderr for a failed git command is an `Event.error`;
    a verbose progress line is an `Event.info`.
-/

/-- A decoded repository descriptor (main.go:25-28). -/
structure Repo where
  Name : String
  GitUrl : String
deriving Repr, DecidableEq

/-- main.go:30. -/
def maxWorkers : Nat := 10

/-- main.go:31. -/
def githubApi : String := "https://api.github.com"

/-- `pat` is a character-wise leading segment of the second list. -/
def hasPre : List Char → List Char → Bool
  | [], _ => true
  | _ :: _, [] => false
  | a :: as, b :: bs => a == b && hasPre as bs

/-- Go `strings.Contains`: `pat` occurs contiguously in the second list. -/
def hasSub (pat : List Char) : List Char → Bool
  | [] => hasPre pat []
  | c :: rest => hasPre pat (c :: rest) || hasSub pat rest

/-- Go `strings.Split` with a one-character separator. -/
def splitOnChar (c : Char) : List Char → List (List Char)
  | [] => [[]]
  | x :: xs =>
    if x == c then [] :: splitOnChar c xs
    else
      match splitOnChar c xs with
      | [] => [[x]]
      | h :: t => (x :: h) :: t

/-- The literal the code searches for (main.go:129). -/
def relNext : List Char := "rel=\"next\"".data

/-- The next-page extraction of getRepos (main.go:126-133).  Only the FIRST
comma-separated entry of the first Link header value is inspected; when it
contains `rel="next"`, the part before the first semicolon is taken and its
first and last characters are stripped (the Go slice `[1:len-1]`; for a part
shorter than two characters Go would panic, this model returns `[]` — no
claim touches that case). -/
def nextPageUrl (linkHeader : List (List Char)) : Option (List Char) :=
  match linkHeader with
  | [] => none
  | h :: _ =>
    let firstLink := (splitOnChar ',' h).headD []
    if hasSub relNext firstLink then
      let urlInBrackets := (splitOnChar ';' firstLink).headD []
      some ((urlInBrackets.drop 1).dropLast)
    else none

/-- One HTTP response to a repository-listing request.  `body = none` models
a body that does not decode as a JSON array of repositories: getRepos
discards the `Decode` error (main.go:124), leaving `repos` as the nil
slice. -/
structure PageResponse where
  status : Nat
  body : Option (List Repo)
  linkHeader : List (List Char)

/-- getRepos (main.go:112-136) over the sequence of HTTP responses the
program receives; each recursive call consumes the next response, and an
exhausted sequence models a transport error from http.Get (a panic).  The
URL taken from the next link determines what the next response is, so it
does not appear separately here. -/
def getRepos : List PageResponse → Except String (List Repo)
  | [] => Except.error "http.Get failed"
  | r :: rest =>
    if 300 ≤ r.status then Except.error "bad status code"
    else
      let repos := r.body.getD []
      match nextPageUrl r.linkHeader with
      | some _ => (getRepos rest).map (fun more => repos ++ more)
      | none => Except.ok repos

/-- A parsed URL: net/url reduced to the part before the query plus the
query key/value multimap.  `Values.Encode` percent-encoding and its sorted
key order are not modelled; no claim depends on them. -/
structure ParsedUrl where
  base : String
  query : List (String × String)
deriving Repr, DecidableEq

/-- Go `url.Values.Set`: every previous value of the key is replaced by the
single given value. -/
def valuesSet (q : List (String × String)) (k v : String) : List (String × String) :=
  q.filter (fun p => p.1 != k) ++ [(k, v)]

/-- Go `url.Values.Get`-style lookup of all values of a key. -/
def valuesGet (q : List (String × String)) (k : String) : List String :=
  (q.filter (fun p => p.1 == k)).map Prod.snd

/-- setMaxPageSize (main.go:139-148): set per_page=100 in the query. -/
def setMaxPageSize (u : ParsedUrl) : ParsedUrl :=
  { u with query := valuesSet u.query "per_page" "100" }

/-- main.go:40: the first page URL,
`strings.Join([]string{githubApi, category, name, "repos"}, "/")`, passed
through setMaxPageSize before getRepos fetches it. -/
def reposUrl (category name : String) : ParsedUrl :=
  setMaxPageSize ⟨githubApi ++ "/" ++ category ++ "/" ++ name ++ "/repos", []⟩

/-- The account-lookup response body for getCategory.  `accountType = none`
models a body that does not decode: the `Decode` error is discarded
(main.go:99) and the `Type` field keeps its zero value `""`. -/
structure AccountResponse where
  status : Nat
  accountType : Option String
deriving Repr, DecidableEq

/-- getCategory (main.go:86-108).  `none` as the whole response models a
transport failure of http.Get (a panic). -/
def getCategory (resp : Option AccountResponse) : Except String String :=
  match resp with
  | none => Except.error "http.Get failed"
  | some r =>
    if 300 ≤ r.status then Except.error "bad status code"
    else
      let t := r.accountType.getD ""
      if t = "User" then Except.ok "users"
      else if t = "Organization" then Except.ok "orgs"
      else Except.error ("Unknown type of account " ++ t)

/-- Outcome of `os.Stat` on a path, as the code distinguishes it. -/
inductive StatResult
  | statOk
  | statNotExist
  | statErr
deriving Repr, DecidableEq

/-- `exists` (main.go:173-183): false only for an IsNotExist error; any
other Stat error panics. -/
def existsAt : StatResult → Except String Bool
  | .statOk => Except.ok true
  | .statNotExist => Except.ok false
  | .statErr => Except.error "stat failed"

/-- Go `path.Join` on two elements: empty parts are dropped and the rest is
joined with "/" (the path.Clean normalization of "." and ".." segments is
not modelled; no claim depends on it). -/
def pathJoin (a b : String) : String :=
  if a = "" then b else if b = "" then a else a ++ "/" ++ b

/-- The external git invocation updateRepo builds (main.go:158-163). -/
inductive GitCmd
  | pull (dir : String)
  | clone (url dir : String)
deriving Repr, DecidableEq

/-- A reported event: an error line on stderr or a verbose progress line. -/
inductive Event
  | info (msg : String)
  | error (msg : String)
deriving Repr, DecidableEq

/-- Whether an event is an error report. -/
def Event.isError : Event → Bool
  | .error _ => true
  | _ => false

/-- updateRepo (main.go:151-170).  `fs` gives the Stat outcome at a path and
`runner` the exit status of the external git process (true = success).  The
returned events are in emission order: the error print for a failed git
command comes first (main.go:167-169), then the DEFERRED verbose message,
which runs when the function returns — whether or not the command failed —
and is gated only by the verbose flag. -/
def updateRepo (fs : String → StatResult) (vb : Bool) (runner : GitCmd → Bool)
    (backupDir : String) (repo : Repo) : Except String (GitCmd × List Event) := do
  let repoDir := pathJoin backupDir repo.Name
  let ex ← existsAt (fs repoDir)
  let (cmd, doneMsg) :=
    if ex then (GitCmd.pull repoDir, "Updated repository: " ++ repo.Name)
    else (GitCmd.clone repo.GitUrl repoDir, "Cloned  repository: " ++ repo.Name)
  let runErr := if runner cmd then [] else [Event.error "git command failed"]
  Except.ok (cmd, runErr ++ (if vb then [Event.info doneMsg] else []))

/-- The worker loop (main.go:57-59): take the queued repositories one after
the other and run updateRepo on each; the result pairs each repository name
with the events its processing emitted.  A panic (`Except.error`) kills the
whole program. -/
def processList (fs : String → StatResult) (vb : Bool) (runner : GitCmd → Bool)
    (backupDir : String) : List Repo → Except String (List (String × List Event))
  | [] => Except.ok []
  | r :: rs => do
    let res ← updateRepo fs vb runner backupDir r
    let rest ← processList fs vb runner backupDir rs
    Except.ok ((r.Name, res.2) :: rest)

/-- main.go:47-51: `workers := maxWorkers; if len(repos) < maxWorkers
{ workers = len(repos) }`, with the concurrency limit as a parameter. -/
def numWorkers (maxW n : Nat) : Nat :=
  if n < maxW then n else maxW

/-- The command updateRepo chooses for a repository (main.go:154-164),
restated for use in specifications. -/
def plannedCmd (fs : String → StatResult) (backupDir : String) (repo : Repo) : GitCmd :=
  let repoDir := pathJoin backupDir repo.Name
  if fs repoDir = .statOk then GitCmd.pull repoDir
  else GitCmd.clone repo.GitUrl repoDir

/-- The events updateRepo emits for one repository when its Stat check does
not panic, restated from updateRepo for use in specifications. -/
def repoEvents (fs : String → StatResult) (vb : Bool) (runner : GitCmd → Bool)
    (backupDir : String) (repo : Repo) : List Event :=
  (if runner (plannedCmd fs backupDir repo) then []
   else [Event.error "git command failed"]) ++
  (if vb then
    [Event.info (if fs (pathJoin backupDir repo.Name) = .statOk
      then "Updated repository: " ++ repo.Name
      else "Cloned  repository: " ++ repo.Name)]
   else [])

/-- Modelled from the spec: the ghbackup library package
(`qvl.io/ghbackup/ghbackup`, called by the CLI in src/unnamed/part_000 but
not present under src/) makes `Run` return an error — and the CLI
(part_000:74-77) exit non-zero — exactly when the run failed; spec 4.5: the
run's exit status is failure iff at least one Error event was emitted. -/
def runExitCode (perRepo : List (String × List Event)) : Nat :=
  if perRepo.any (fun p => p.2.any Event.isError) then 1 else 0

/-- Following the spec's words (4.2): locate the comma-separated entry whose
`rel` equals "next" and extract the URL enclosed in the angle brackets;
`none` when no entry has `rel="next"` (last page). -/
def specNextUrl (headerValue : List Char) : Option (List Char) :=
  match (splitOnChar ',' headerValue).find? (fun e => hasSub relNext e) with
  | none => none
  | some e => some (((e.dropWhile (fun c => c != '<')).drop 1).takeWhile (fun c => c != '>'))

/-- One Link-header entry as the service sends it. -/
structure LinkEntry where
  url : List Char
  rel : List Char

/-- Renders an entry in the wire form `<url>; rel="r"`. -/
def renderEntry (e : LinkEntry) : List Char :=
  '<' :: e.url ++ '>' :: ';' :: ' ' :: ("rel=\"".data ++ e.rel ++ "\"".data)

/-- A full Link header value: entries joined with ", ". -/
def renderHeader : List LinkEntry → List Char
  | [] => []
  | [e] => renderEntry e
  | e :: es => renderEntry e ++ ',' :: ' ' :: renderHeader es

/-- A well-formed paginated response sequence: every page decodes and has a
2xx status, every page except the last carries a next link in the position
getRepos inspects, and the last page carries none. -/
def goodChain : List PageResponse → Bool
  | [] => false
  | [r] => decide (r.status < 300) && r.body.isSome && (nextPageUrl r.linkHeader).isNone
  | r :: r2 :: rest =>
    decide (r.status < 300) && r.body.isSome && (nextPageUrl r.linkHeader).isSome &&
      goodChain (r2 :: rest)

/-- The Link header value used to exercise the parser: two entries, only the
second of which has `rel="next"`. -/
def linkHeaderEx : List Char :=
  "<https://x.test/r?page=1>; rel=\"first\", <https://x.test/r?page=3>; rel=\"next\"".data

/-- First response page of the concrete pagination example. -/
def pageEx1 : PageResponse :=
  ⟨200, some [⟨"alpha", "git://x.test/alpha.git"⟩],
   ["<https://x.test/r?page=2>; rel=\"next\"".data]⟩

/-- Second and last response page of the concrete pagination example. -/
def pageEx2 : PageResponse :=
  ⟨200, some [⟨"beta", "git://x.test/beta.git"⟩, ⟨"gamma", "git://x.test/gamma.git"⟩], []⟩

/-! Helper lemmas. -/

theorem splitOnChar_ne_nil (c : Char) (s : List Char) : splitOnChar c s ≠ [] := by
  induction s with
  | nil => simp [splitOnChar]
  | cons x xs ih =>
    simp only [splitOnChar]
    split
    · simp
    · split
      · simp
      · simp

theorem splitOnChar_eq_single (c : Char) (a : List Char) (h : c ∉ a) :
    splitOnChar c a = [a] := by
  induction a with
  | nil => rfl
  | cons x xs ih =>
    simp only [List.mem_cons, not_or] at h
    have hx : (x == c) = false := by
      simp only [beq_eq_false_iff_ne, ne_eq]
      exact fun e => h.1 e.symm
    simp only [splitOnChar, hx, Bool.false_eq_true, if_false, ih h.2]

theorem splitOnChar_append (c : Char) (a b : List Char) (h : c ∉ a) :
    splitOnChar c (a ++ c :: b) = a :: splitOnChar c b := by
  induction a with
  | nil => simp [splitOnChar]
  | cons x xs ih =>
    simp only [List.mem_cons, not_or] at h
    have hx : (x == c) = false := by
      simp only [beq_eq_false_iff_ne, ne_eq]
      exact fun e => h.1 e.symm
    simp only [List.cons_append, splitOnChar, hx, Bool.false_eq_true, if_false,
      List.append_eq, ih h.2]

theorem updateRepo_eq (fs : String → StatResult) (vb : Bool) (runner : GitCmd → Bool)
    (backupDir : String) (r : Repo)
    (h : fs (pathJoin backupDir r.Name) ≠ StatResult.statErr) :
    updateRepo fs vb runner backupDir r
      = Except.ok (plannedCmd fs backupDir r, repoEvents fs vb runner backupDir r) := by
  rcases hfs : fs (pathJoin backupDir r.Name) with _ | _ | _
  · simp only [updateRepo, existsAt, plannedCmd, repoEvents, hfs]
    rfl
  · simp only [updateRepo, existsAt, plannedCmd, repoEvents, hfs]
    rfl
  · exact absurd hfs h

theorem processList_eq (fs : String → StatResult) (vb : Bool) (runner : GitCmd → Bool)
    (backupDir : String) (repos : List Repo)
    (h : ∀ r ∈ repos, fs (pathJoin backupDir r.Name) ≠ StatResult.statErr) :
    processList fs vb runner backupDir repos
      = Except.ok (repos.map (fun r => (r.Name, repoEvents fs vb runner backupDir r))) := by
  induction repos with
  | nil => rfl
  | cons r rs ih =>
    have h1 := h r (List.mem_cons_self r rs)
    have h2 : ∀ x ∈ rs, fs (pathJoin backupDir x.Name) ≠ StatResult.statErr :=
      fun x hx => h x (List.mem_cons_of_mem r hx)
    simp only [processList, updateRepo_eq fs vb runner backupDir r h1, ih h2]
    rfl

theorem processList_statErr (fs : String → StatResult) (vb : Bool) (runner : GitCmd → Bool)
    (backupDir : String) (repos : List Repo)
    (h : ∃ r ∈ repos, fs (pathJoin backupDir r.Name) = StatResult.statErr) :
    processList fs vb runner backupDir repos = Except.error "stat failed" := by
  induction repos with
  | nil => simp at h
  | cons r rs ih =>
    by_cases hr : fs (pathJoin backupDir r.Name) = StatResult.statErr
    · simp only [processList, updateRepo, hr, existsAt]
      rfl
    · obtain ⟨x, hx, hfsx⟩ := h
      rcases List.mem_cons.mp hx with rfl | hmem
      · exact absurd hfsx hr
      · have hupd := updateRepo_eq fs vb runner backupDir r hr
        have hrest := ih ⟨x, hmem, hfsx⟩
        simp only [processList, hupd, hrest]
        rfl

theorem getRepos_cons_next (r : PageResponse) (rest : List PageResponse)
    (h1 : r.status < 300) (hu : (nextPageUrl r.linkHeader).isSome = true) :
    getRepos (r :: rest) = (getRepos rest).map (fun more => r.body.getD [] ++ more) := by
  obtain ⟨u, hu2⟩ := Option.isSome_iff_exists.mp hu
  simp [getRepos, Nat.not_le.mpr h1, hu2]

theorem getRepos_last (r : PageResponse) (h1 : r.status < 300)
    (hn : nextPageUrl r.linkHeader = none) :
    getRepos [r] = Except.ok (r.body.getD []) := by
  simp [getRepos, Nat.not_le.mpr h1, hn]

theorem getRepos_goodChain : ∀ rs : List PageResponse, goodChain rs = true →
    getRepos rs = Except.ok ((rs.map (fun r => r.body.getD [])).flatten)
  | [], h => by simp [goodChain] at h
  | [r], h => by
    simp only [goodChain, Bool.and_eq_true, decide_eq_true_eq] at h
    obtain ⟨⟨h1, _⟩, h3⟩ := h
    rw [getRepos_last r h1 (Option.isNone_iff_eq_none.mp h3)]
    simp
  | r :: r2 :: rest, h => by
    simp only [goodChain, Bool.and_eq_true, decide_eq_true_eq] at h
    obtain ⟨⟨⟨h1, _⟩, h3⟩, h4⟩ := h
    rw [getRepos_cons_next r (r2 :: rest) h1 h3, getRepos_goodChain (r2 :: rest) h4]
    simp [Except.map]

theorem filter_key_erase (q : List (String × String)) (k : String) :
    (q.filter (fun p => p.1 != k)).filter (fun p => p.1 == k) = [] := by
  induction q with
  | nil => rfl
  | cons a q ih =>
    by_cases h : a.1 = k
    · simp [List.filter_cons, h, ih]
    · simp [List.filter_cons, h, ih]

theorem filter_key_other (q : List (String × String)) (k kp : String) (h : k ≠ kp) :
    (q.filter (fun p => p.1 != kp)).filter (fun p => p.1 == k)
      = q.filter (fun p => p.1 == k) := by
  induction q with
  | nil => rfl
  | cons a q ih =>
    have hkp : kp ≠ k := fun e => h e.symm
    by_cases h1 : a.1 = kp
    · have h2 : (a.1 == k) = false := by
        simp only [beq_eq_false_iff_ne, ne_eq, h1]
        exact fun e => h e.symm
      simp [List.filter_cons, h1, h2, ih, h, hkp]
    · by_cases h2 : a.1 = k
      · simp [List.filter_cons, h1, h2, ih, h, hkp]
      · simp [List.filter_cons, h1, h2, ih, h, hkp]

theorem renderEntry_shape (e : LinkEntry) :
    renderEntry e
      = ('<' :: e.url ++ ['>'])
        ++ ';' :: (' ' :: ("rel=\"".data ++ e.rel ++ "\"".data)) := by
  simp [renderEntry]

/-- C2 (amended): the client inspects only the FIRST comma-separated entry of
the Link header value.  If that first entry is a well-formed entry whose rel
is "next", the extracted next-page URL is exactly the text strictly between
its angle brackets; for any other rel of the first entry the client reports
the last page, regardless of rel="next" entries in later positions. -/
theorem C2_next_link_first_entry_only (e : LinkEntry) (es : List LinkEntry)
    (hc : ',' ∉ renderEntry e)
    (hs : ';' ∉ e.url)
    (hrel : hasSub relNext (renderEntry e) = (e.rel == "next".data)) :
    nextPageUrl [renderHeader (e :: es)]
      = (if e.rel == "next".data then some e.url else none) := by
  have hfirst : (splitOnChar ',' (renderHeader (e :: es))).headD [] = renderEntry e := by
    cases es with
    | nil =>
      rw [show renderHeader [e] = renderEntry e from rfl, splitOnChar_eq_single ',' _ hc]
      rfl
    | cons e2 es2 =>
      rw [show renderHeader (e :: e2 :: es2)
            = renderEntry e ++ ',' :: (' ' :: renderHeader (e2 :: es2)) from rfl,
        splitOnChar_append ',' _ _ hc]
      rfl
  have hsemi : ';' ∉ ('<' :: e.url ++ ['>']) := by
    intro hm
    rcases List.mem_cons.mp hm with h | h
    · exact absurd h (by decide)
    · rcases List.mem_append.mp h with h | h
      · exact hs h
      · exact absurd (List.mem_singleton.mp h) (by decide)
  have hsplit : (splitOnChar ';' (renderEntry e)).headD [] = '<' :: e.url ++ ['>'] := by
    rw [renderEntry_shape, splitOnChar_append ';' _ _ hsemi]
    rfl
  simp only [nextPageUrl, hfirst, hrel]
  by_cases hn : (e.rel == "next".data) = true
  · simp only [hn, if_true, hsplit]
    simp [List.dropLast_concat]
  · simp only [Bool.not_eq_true] at hn
    simp [hn]

/-- C2 witness: a single well-formed rel="next" first entry yields exactly
the URL between its brackets. -/
theorem C2_next_link_first_entry_only_witness :
    nextPageUrl [renderHeader [LinkEntry.mk "https://x.test/r?page=2".data "next".data]]
      = some "https://x.test/r?page=2".data := by
  have h := C2_next_link_first_entry_only
    (LinkEntry.mk "https://x.test/r?page=2".data "next".data) []
    (by decide) (by decide) (by decide)
  simpa using h

/-- C2 counterexample: a header value of two comma-separated entries whose
single rel="next" entry is the SECOND one.  The spec-described parser
extracts its URL; the code reports the last page (none), so the extraction
is not independent of the entry's position. -/
theorem C2_counterexample :
    ((splitOnChar ',' linkHeaderEx).filter (fun e => hasSub relNext e)).length = 1 ∧
    specNextUrl linkHeaderEx = some "https://x.test/r?page=3".data ∧
    nextPageUrl [linkHeaderEx] = none := by
  refine ⟨by decide, by decide, by decide⟩

/-- C1: a failed clone or pull invocation is recoverable: processing
completes for every repository in order (no worker is stopped, the run is
not aborted), exactly the failing repositories get an Error event (one
each, none for the successful ones), and the run's overall exit status is
non-zero because at least one repository failed (exit status via the
spec-modelled `runExitCode`). -/
theorem C1_repo_failure_recoverable (fs : String → StatResult) (vb : Bool)
    (runner : GitCmd → Bool) (backupDir : String) (repos : List Repo)
    (hok : ∀ r ∈ repos, fs (pathJoin backupDir r.Name) ≠ StatResult.statErr)
    (hfail : ∃ r ∈ repos, runner (plannedCmd fs backupDir r) = false) :
    processList fs vb runner backupDir repos
        = Except.ok (repos.map (fun r => (r.Name, repoEvents fs vb runner backupDir r))) ∧
    (repos.map (fun r => (r.Name, repoEvents fs vb runner backupDir r))).map Prod.fst
        = repos.map Repo.Name ∧
    (∀ r ∈ repos, ((repoEvents fs vb runner backupDir r).filter Event.isError).length
        = (if runner (plannedCmd fs backupDir r) then 0 else 1)) ∧
    runExitCode (repos.map (fun r => (r.Name, repoEvents fs vb runner backupDir r))) = 1 := by
  refine ⟨processList_eq fs vb runner backupDir repos hok, ?_, ?_, ?_⟩
  · simp
  · intro r hr
    rcases hrun : runner (plannedCmd fs backupDir r) with _ | _
    · rcases vb with _ | _ <;> simp [repoEvents, hrun, Event.isError]
    · rcases vb with _ | _ <;> simp [repoEvents, hrun, Event.isError]
  · obtain ⟨r, hr, hrun⟩ := hfail
    have hany : (repos.map (fun r => (r.Name, repoEvents fs vb runner backupDir r))).any
        (fun p => p.2.any Event.isError) = true := by
      rw [List.any_eq_true]
      refine ⟨(r.Name, repoEvents fs vb runner backupDir r), List.mem_map_of_mem _ hr, ?_⟩
      rw [List.any_eq_true]
      refine ⟨Event.error "git command failed", ?_, rfl⟩
      simp [repoEvents, hrun]
    simp [runExitCode, hany]

/-- C1 witness: two repositories, only the clone of "b" fails; the run
completes and the exit status is 1. -/
theorem C1_repo_failure_recoverable_witness :
    runExitCode ([Repo.mk "a" "ua", Repo.mk "b" "ub"].map
      (fun r => (r.Name, repoEvents (fun _ => StatResult.statNotExist) true
        (fun c => match c with | GitCmd.clone u _ => u != "ub" | _ => true) "/backup" r))) = 1 :=
  (C1_repo_failure_recoverable (fun _ => StatResult.statNotExist) true
    (fun c => match c with | GitCmd.clone u _ => u != "ub" | _ => true) "/backup"
    [Repo.mk "a" "ua", Repo.mk "b" "ub"]
    (by intro r hr; simp)
    ⟨Repo.mk "b" "ub", by simp, by decide⟩).2.2.2

/-- C3: the claim's decode-failure half does not hold in the code: getRepos
discards the JSON Decode error (main.go:124) and returns the nil slice as a
SUCCESSFUL empty enumeration instead of aborting, while a non-2xx status is
fatal as claimed. -/
theorem C3_decode_failure_not_fatal :
    getRepos [⟨200, none, []⟩] = Except.ok [] ∧
    getRepos [⟨404, some [], []⟩] = Except.error "bad status code" :=
  ⟨rfl, rfl⟩

/-- C4: over a well-formed paginated response sequence the enumerator
returns exactly the concatenation of the pages in fetch order, and its
length is the sum of the page sizes; a single empty page with no next link
is an instance (empty result, not an error). -/
theorem C4_pagination_concatenation (rs : List PageResponse) (h : goodChain rs = true) :
    getRepos rs = Except.ok ((rs.map (fun r => r.body.getD [])).flatten) ∧
    ((rs.map (fun r => r.body.getD [])).flatten).length
      = (rs.map (fun r => (r.body.getD []).length)).sum := by
  refine ⟨getRepos_goodChain rs h, ?_⟩
  rw [List.length_flatten, List.map_map]
  rfl

/-- C4 witness: a two-page sequence concatenates in order; an empty single
page yields the empty result without error. -/
theorem C4_pagination_concatenation_witness :
    getRepos [pageEx1, pageEx2]
      = Except.ok [Repo.mk "alpha" "git://x.test/alpha.git",
          Repo.mk "beta" "git://x.test/beta.git", Repo.mk "gamma" "git://x.test/gamma.git"] ∧
    getRepos [⟨200, some [], []⟩] = Except.ok [] := by
  constructor
  · have h := (C4_pagination_concatenation [pageEx1, pageEx2] (by decide)).1
    rw [h]
    rfl
  · have h := (C4_pagination_concatenation [⟨200, some [], []⟩] (by decide)).1
    rw [h]
    rfl

/-- C5: the dispatcher starts min(C, N) workers for N repositories under
concurrency limit C; with zero repositories no workers are started and
processing completes immediately without error. -/
theorem C5_worker_count (C N : Nat) (fs : String → StatResult) (vb : Bool)
    (runner : GitCmd → Bool) (backupDir : String) :
    numWorkers C N = min C N ∧ numWorkers C 0 = 0 ∧
    processList fs vb runner backupDir [] = Except.ok [] := by
  refine ⟨?_, ?_, rfl⟩
  · simp only [numWorkers]
    split <;> omega
  · simp only [numWorkers]
    split <;> omega

/-- C6: the local path is the backup root joined with the descriptor's
name; if that path exists the worker pulls in that directory, otherwise it
clones the descriptor's URL into that path. -/
theorem C6_clone_or_pull (fs : String → StatResult) (vb : Bool) (runner : GitCmd → Bool)
    (backupDir : String) (r : Repo) :
    (fs (pathJoin backupDir r.Name) = StatResult.statOk →
      ∃ evs, updateRepo fs vb runner backupDir r
        = Except.ok (GitCmd.pull (pathJoin backupDir r.Name), evs)) ∧
    (fs (pathJoin backupDir r.Name) = StatResult.statNotExist →
      ∃ evs, updateRepo fs vb runner backupDir r
        = Except.ok (GitCmd.clone r.GitUrl (pathJoin backupDir r.Name), evs)) := by
  constructor
  · intro h
    have hne : fs (pathJoin backupDir r.Name) ≠ StatResult.statErr := by simp [h]
    refine ⟨repoEvents fs vb runner backupDir r, ?_⟩
    rw [updateRepo_eq fs vb runner backupDir r hne]
    simp [plannedCmd, h]
  · intro h
    have hne : fs (pathJoin backupDir r.Name) ≠ StatResult.statErr := by simp [h]
    refine ⟨repoEvents fs vb runner backupDir r, ?_⟩
    rw [updateRepo_eq fs vb runner backupDir r hne]
    simp [plannedCmd, h]

/-- C6 witness: an existing path is pulled, a missing one is cloned. -/
theorem C6_clone_or_pull_witness :
    (∃ evs, updateRepo (fun _ => StatResult.statOk) true (fun _ => true) "/backup"
        (Repo.mk "r" "git://u") = Except.ok (GitCmd.pull (pathJoin "/backup" "r"), evs)) ∧
    (∃ evs, updateRepo (fun _ => StatResult.statNotExist) true (fun _ => true) "/backup"
        (Repo.mk "r" "git://u")
      = Except.ok (GitCmd.clone "git://u" (pathJoin "/backup" "r"), evs)) :=
  ⟨(C6_clone_or_pull (fun _ => StatResult.statOk) true (fun _ => true) "/backup"
      (Repo.mk "r" "git://u")).1 rfl,
   (C6_clone_or_pull (fun _ => StatResult.statNotExist) true (fun _ => true) "/backup"
      (Repo.mk "r" "git://u")).2 rfl⟩

/-- C7: type "User" selects path segment "users", "Organization" selects
"orgs", and any other declared type value fails classification with an
error (a panic, so the run cannot proceed). -/
theorem C7_classifier (r : AccountResponse) (h : r.status < 300) :
    (r.accountType = some "User" → getCategory (some r) = Except.ok "users") ∧
    (r.accountType = some "Organization" → getCategory (some r) = Except.ok "orgs") ∧
    (∀ t, r.accountType = some t → t ≠ "User" → t ≠ "Organization" →
      getCategory (some r) = Except.error ("Unknown type of account " ++ t)) := by
  refine ⟨?_, ?_, ?_⟩
  · intro ht
    simp [getCategory, Nat.not_le.mpr h, ht]
  · intro ht
    simp [getCategory, Nat.not_le.mpr h, ht]
  · intro t ht h1 h2
    simp [getCategory, Nat.not_le.mpr h, ht, h1, h2]

/-- C7 witness: the three classification outcomes at concrete responses. -/
theorem C7_classifier_witness :
    getCategory (some ⟨200, some "User"⟩) = Except.ok "users" ∧
    getCategory (some ⟨200, some "Organization"⟩) = Except.ok "orgs" ∧
    getCategory (some ⟨200, some "Bot"⟩) = Except.error ("Unknown type of account " ++ "Bot") :=
  ⟨(C7_classifier ⟨200, some "User"⟩ (by decide)).1 rfl,
   (C7_classifier ⟨200, some "Organization"⟩ (by decide)).2.1 rfl,
   (C7_classifier ⟨200, some "Bot"⟩ (by decide)).2.2 "Bot" rfl (by decide) (by decide)⟩

/-- C8: a Stat error other than not-exist is a panic that aborts the whole
run — any repository whose existence check hits it turns the entire
processing into an error — while not-exist is the normal non-error branch
returning false (a new repository to clone). -/
theorem C8_stat_error_fatal (fs : String → StatResult) (vb : Bool) (runner : GitCmd → Bool)
    (backupDir : String) (repos : List Repo) :
    existsAt StatResult.statErr = Except.error "stat failed" ∧
    existsAt StatResult.statNotExist = Except.ok false ∧
    ((∃ r ∈ repos, fs (pathJoin backupDir r.Name) = StatResult.statErr) →
      processList fs vb runner backupDir repos = Except.error "stat failed") :=
  ⟨rfl, rfl, processList_statErr fs vb runner backupDir repos⟩

/-- C8 witness: one repository whose existence check errors aborts the
whole processing. -/
theorem C8_stat_error_fatal_witness :
    processList (fun _ => StatResult.statErr) true (fun _ => true) "/backup"
      [Repo.mk "r" "u"] = Except.error "stat failed" :=
  (C8_stat_error_fatal (fun _ => StatResult.statErr) true (fun _ => true) "/backup"
    [Repo.mk "r" "u"]).2.2 ⟨Repo.mk "r" "u", by simp, rfl⟩

/-- C9: setMaxPageSize sets the per_page query parameter to "100"
(replacing any previous value and leaving the rest of the URL unchanged),
and the first page URL main builds before fetching carries per_page=100. -/
theorem C9_page_size (u : ParsedUrl) (k category name : String) (hk : k ≠ "per_page") :
    valuesGet (setMaxPageSize u).query "per_page" = ["100"] ∧
    (setMaxPageSize u).base = u.base ∧
    valuesGet (setMaxPageSize u).query k = valuesGet u.query k ∧
    valuesGet (reposUrl category name).query "per_page" = ["100"] := by
  refine ⟨?_, rfl, ?_, rfl⟩
  · simp [setMaxPageSize, valuesSet, valuesGet, List.filter_append, filter_key_erase]
  · simp [setMaxPageSize, valuesSet, valuesGet, List.filter_append,
      filter_key_other _ _ _ hk, Ne.symm hk]

/-- C9 witness: a URL with an existing per_page value and another
parameter. -/
theorem C9_page_size_witness :
    valuesGet (setMaxPageSize ⟨"https://api.github.com/users/n/repos",
      [("a", "b"), ("per_page", "30")]⟩).query "per_page" = ["100"] ∧
    valuesGet (setMaxPageSize ⟨"https://api.github.com/users/n/repos",
      [("a", "b"), ("per_page", "30")]⟩).query "a" = ["b"] := by
  have h := C9_page_size ⟨"https://api.github.com/users/n/repos", [("a", "b"), ("per_page", "30")]⟩
    "a" "users" "n" (by decide)
  refine ⟨h.1, ?_⟩
  rw [h.2.2.1]
  rfl

/-- C10: with verbose on and the git subprocess failing, updateRepo still
emits the deferred "Updated repository"/"Cloned  repository" Info message
after the error report, so an Info message for a repository does not imply
its operation succeeded. -/
theorem C10_info_despite_failure (fs : String → StatResult) (runner : GitCmd → Bool)
    (backupDir : String) (r : Repo)
    (hok : fs (pathJoin backupDir r.Name) ≠ StatResult.statErr)
    (hrun : runner (plannedCmd fs backupDir r) = false) :
    ∃ msg, updateRepo fs true runner backupDir r
        = Except.ok (plannedCmd fs backupDir r,
            [Event.error "git command failed", Event.info msg]) ∧
      (msg = "Updated repository: " ++ r.Name ∨ msg = "Cloned  repository: " ++ r.Name) := by
  refine ⟨if fs (pathJoin backupDir r.Name) = StatResult.statOk
    then "Updated repository: " ++ r.Name else "Cloned  repository: " ++ r.Name, ?_, ?_⟩
  · rw [updateRepo_eq fs true runner backupDir r hok]
    simp [repoEvents, hrun]
  · split
    · exact Or.inl rfl
    · exact Or.inr rfl

/-- C10 witness: a failing pull with verbose on still reports the Updated
message. -/
theorem C10_info_despite_failure_witness :
    ∃ msg, updateRepo (fun _ => StatResult.statOk) true (fun _ => false) "/backup"
        (Repo.mk "r" "u")
      = Except.ok (plannedCmd (fun _ => StatResult.statOk) "/backup" (Repo.mk "r" "u"),
          [Event.error "git command failed", Event.info msg]) ∧
      (msg = "Updated repository: " ++ "r" ∨ msg = "Cloned  repository: " ++ "r") :=
  C10_info_despite_failure (fun _ => StatResult.statOk) (fun _ => false) "/backup"
    (Repo.mk "r" "u") (by simp) rfl
